import Mathlib

/-!
Shallow embedding of the incremental snapshot synchronization engine of
`src/lib/movies/api.ts` (the R2-bucket checkpoint variant: `syncMovies`,
`getMovies`, `getLastSynced`, `setLastSynced`, `fetchMovies`, `appendUnique`,
`getSyncUntil`, `getDateRange`, `getNextSyncDates`) together with the Movie
schema of `src/lib/movies/types.ts` (`title`, `imdb_id`, `poster_url`, all
strings, extra fields permitted by zod's default non-strict object parsing).

Modelling conventions:
* Calendar days are `Int` day numbers (days since 1970-01-01).  All date
  arithmetic in the source (`setDate(getDate() ± k)`, `Date` comparison,
  `toISOString` day formatting) is day-granular on UTC-midnight values, so
  it is faithfully `Int` arithmetic on day numbers.
* The R2 bucket is a `BucketState` record with one field per blob key
  (`movies.json`, `last_synced.txt`).  Each operation returns the updated
  state, the ordered list of I/O events it performed, and an `Except` value
  (a thrown error or the returned value).
* The remote HTTP world is a function `responses : Int → Remote` giving, for
  each requested day, either a transport error (fetch rejects / timeout) or
  a response with a status code and a body; `response.ok` is the fetch API's
  `200 ≤ status ≤ 299`.  A body either fails `response.json()` (`malformed`)
  or is a parsed JSON value.
* `zod`'s `z.array(Movie).parse` is `parseMovies`; a `none` result models the
  thrown `ValidationError`.
-/

namespace PopularMovies

/-- A movie record, from the zod schema `Movie` in `src/lib/movies/types.ts`:
`title`, `imdb_id` and `poster_url` are required strings; `imdb_id` is the
deduplication key used by `appendUnique`. -/
structure Movie where
  title : String
  imdb_id : String
  poster_url : String
deriving Repr, DecidableEq

/-- A JSON value, as produced by `response.json()` / `JSON.parse`. -/
inductive Json where
  | str (s : String)
  | num (n : Int)
  | boolean (b : Bool)
  | null
  | arr (elems : List Json)
  | obj (fields : List (String × Json))

/-- Property lookup on a parsed JSON object.  `JSON.parse` keeps the last
occurrence of a duplicated key, hence `getLast?`. -/
def getField (fields : List (String × Json)) (key : String) : Option Json :=
  ((fields.filter (fun f => f.1 == key)).map (fun f => f.2)).getLast?

/-- `Movie.parse` on one JSON value: an object whose `title`, `imdb_id` and
`poster_url` properties are strings (zod objects are non-strict, so extra
fields are ignored).  `none` models the thrown `ValidationError`. -/
def parseMovie (j : Json) : Option Movie :=
  match j with
  | .obj fields =>
    match getField fields "title", getField fields "imdb_id",
          getField fields "poster_url" with
    | some (.str t), some (.str i), some (.str p) =>
        some { title := t, imdb_id := i, poster_url := p }
    | _, _, _ => none
  | _ => none

/-- Element-wise validation of a JSON array: succeeds with the parsed list
exactly when every element parses as a `Movie`. -/
def parseMovieList : List Json → Option (List Movie)
  | [] => some []
  | j :: rest =>
    match parseMovie j, parseMovieList rest with
    | some m, some ms => some (m :: ms)
    | _, _ => none

/-- `z.array(Movie).parse` on one JSON value: a JSON array all of whose
elements parse as `Movie`. -/
def parseMovies (j : Json) : Option (List Movie) :=
  match j with
  | .arr elems => parseMovieList elems
  | _ => none

/-- `JSON.stringify` of one movie (the JSON value it denotes). -/
def encodeMovie (m : Movie) : Json :=
  .obj [("title", .str m.title), ("imdb_id", .str m.imdb_id),
        ("poster_url", .str m.poster_url)]

/-- `JSON.stringify` of a movie array (the JSON value it denotes). -/
def encodeMovies (ms : List Movie) : Json :=
  .arr (ms.map encodeMovie)

/-- The body of an HTTP response: either `response.json()` rejects
(`malformed`, e.g. a truncated publish) or it yields a JSON value. -/
inductive Body where
  | malformed
  | json (j : Json)

/-- Outcome of `fetch` for one day's URL: the promise rejects (timeout /
connection error) or resolves to a response with a status and a body. -/
inductive Remote where
  | transportError
  | response (status : Nat) (body : Body)

/-- The fetch API's `Response.ok`: status in the inclusive range 200–299. -/
def isOk (status : Nat) : Bool := 200 ≤ status && status ≤ 299

/-- The errors the engine can throw: a rejected `fetch` (transport error /
timeout), a zod `ValidationError`, the `"Invalid last sync date"` error of
`getSyncUntil`, and a `response.json()` SyntaxError while reading the
persisted collection. -/
inductive SyncError where
  | fetchError
  | validationError
  | invalidCheckpoint
  | jsonError
deriving Repr, DecidableEq

/-- The persisted content of the `movies.json` blob: either text that is not
JSON (so `object.json()` throws) or a JSON value. -/
inductive MoviesBlob where
  | rawInvalid
  | rawJson (j : Json)

/-- The R2 bucket: the two blobs the engine reads and writes.  The
`last_synced.txt` text is modelled as the day number it denotes (`YYYY-MM-DD`
round-trips through `toISOString().split("T")[0]` / `z.iso.date().parse`);
no claim concerns a malformed stored checkpoint string. -/
structure BucketState where
  moviesBlob : Option MoviesBlob
  lastSyncedBlob : Option Int

/-- One I/O event: a bucket `get`/`put` on one of the two keys, or an HTTP
fetch of one day's snapshot URL. -/
inductive Ev where
  | getMovies
  | putMovies (movies : List Movie)
  | getLastSynced
  | putLastSynced (date : Int)
  | fetch (date : Int)
deriving Repr, DecidableEq

/-- `setMovies`: `bucket.put("movies.json", JSON.stringify(movies))`. -/
def setMovies (s : BucketState) (movies : List Movie) : BucketState × List Ev :=
  ({ s with moviesBlob := some (.rawJson (encodeMovies movies)) },
   [.putMovies movies])

/-- `getMovies`: read `movies.json`; if absent, persist `[]` and return `[]`;
otherwise `object.json()` (throws on non-JSON content) then
`z.array(Movie).parse` (throws `ValidationError` on schema violation). -/
def getMovies (s : BucketState) :
    BucketState × List Ev × Except SyncError (List Movie) :=
  match s.moviesBlob with
  | none =>
      let movies : List Movie := []
      let (s', ev) := setMovies s movies
      (s', .getMovies :: ev, .ok movies)
  | some .rawInvalid => (s, [.getMovies], .error .jsonError)
  | some (.rawJson j) =>
      match parseMovies j with
      | some ms => (s, [.getMovies], .ok ms)
      | none => (s, [.getMovies], .error .validationError)

/-- `setLastSynced`: `bucket.put("last_synced.txt", date.toISOString()
.split("T")[0])`.  The `"Invalid date string"` branch is dead code: `split`
on a nonempty string always yields a nonempty first element. -/
def setLastSynced (s : BucketState) (date : Int) : BucketState × List Ev :=
  ({ s with lastSyncedBlob := some date }, [.putLastSynced date])

/-- `getEarliestSync()`: `new Date(2019, 11, 2)`, i.e. 2 December 2019,
which is day 18232 counted from 1970-01-01. -/
def getEarliestSync : Int := 18232

/-- `getLastSynced`: read `last_synced.txt`; if absent, initialize it to the
day before the earliest sync, persist that value and return it. -/
def getLastSynced (s : BucketState) : BucketState × List Ev × Int :=
  match s.lastSyncedBlob with
  | none =>
      let date := getEarliestSync - 1
      let (s', ev) := setLastSynced s date
      (s', .getLastSynced :: ev, date)
  | some d => (s, [.getLastSynced], d)

/-- The per-day `fetchMovies(date)`: fetch the day's snapshot URL; a non-ok
response returns `[]` for status 404 and `null` (here `none`) otherwise; an
ok response whose body fails to parse as JSON returns `[]`; otherwise the
body is validated by `z.array(Movie).parse`, whose failure throws
`ValidationError`.  A rejected fetch throws (`fetchError`). -/
def fetchMovies (responses : Int → Remote) (date : Int) :
    List Ev × Except SyncError (Option (List Movie)) :=
  match responses date with
  | .transportError => ([.fetch date], .error .fetchError)
  | .response status body =>
    if !isOk status then
      if status == 404 then ([.fetch date], .ok (some []))
      else ([.fetch date], .ok none)
    else
      match body with
      | .malformed => ([.fetch date], .ok (some []))
      | .json j =>
        match parseMovies j with
        | some ms => ([.fetch date], .ok (some ms))
        | none => ([.fetch date], .error .validationError)

/-- `appendUnique`: if some existing movie has the incoming movie's
`imdb_id`, return a copy of the existing array; otherwise return the
existing array with the incoming movie appended. -/
def appendUnique (movies : List Movie) (newMovie : Movie) : List Movie :=
  match movies.find? (fun movie => movie.imdb_id == newMovie.imdb_id) with
  | some _ => movies
  | none => movies ++ [newMovie]

/-- `getLatestSync()`: yesterday relative to the clock (`today` is the
current day number). -/
def getLatestSync (today : Int) : Int := today - 1

/-- `getSyncUntil`: throws `"Invalid last sync date"` when the checkpoint is
strictly after yesterday; otherwise the window end is `lastSynced + 7`,
capped at yesterday. -/
def getSyncUntil (today lastSynced : Int) : Except SyncError Int :=
  let latestSync := getLatestSync today
  if lastSynced > latestSync then .error .invalidCheckpoint
  else
    let syncUntil := lastSynced + 7
    if syncUntil > latestSync then .ok latestSync
    else .ok syncUntil

/-- The `while (date <= until)` loop of `getDateRange`, with the iteration
count made explicit: `rangeFrom d n = [d, d+1, …, d+n-1]`. -/
def rangeFrom (fromDate : Int) : Nat → List Int
  | 0 => []
  | n + 1 => fromDate :: rangeFrom (fromDate + 1) n

/-- `getDateRange(from, until)`: the consecutive days `from, …, until`
(empty when `from > until`); the loop runs `until + 1 - from` times. -/
def getDateRange (fromDate untilDate : Int) : List Int :=
  rangeFrom fromDate (untilDate + 1 - fromDate).toNat

/-- `getNextSyncDates`: read the checkpoint, compute the window end, and
return the days strictly after the checkpoint up to the window end.  The
source's `if (lastSynced === syncUntil) return []` compares object identity
(`===` on two `Date` objects); `getSyncUntil` always returns a freshly
constructed `Date`, so that test is always false and is dead code — the
empty window arises from `getDateRange` returning `[]`. -/
def getNextSyncDates (today : Int) (s : BucketState) :
    BucketState × List Ev × Except SyncError (List Int) :=
  let g := getLastSynced s
  let s1 := g.1
  let ev1 := g.2.1
  let lastSynced := g.2.2
  match getSyncUntil today lastSynced with
  | .error e => (s1, ev1, .error e)
  | .ok syncUntil =>
      (s1, ev1, .ok (getDateRange (lastSynced + 1) syncUntil))

/-- The `for (const date of dates)` loop body of `syncMovies`, carrying the
in-memory `movies` array and the bucket across iterations; a thrown error
aborts the remaining iterations. -/
def syncLoop (responses : Int → Remote) (dates : List Int)
    (movies : List Movie) (s : BucketState) :
    BucketState × List Ev × Except SyncError Unit :=
  match dates with
  | [] => (s, [], .ok ())
  | date :: restDates =>
    match fetchMovies responses date with
    | (ev, .error e) => (s, ev, .error e)
    | (ev, .ok none) =>
        let (s', evs, r) := syncLoop responses restDates movies s
        (s', ev ++ evs, r)
    | (ev, .ok (some newMovies)) =>
        let previousCount := movies.length
        let movies' := newMovies.foldl appendUnique movies
        let (s1, ev1) :=
          if movies'.length > previousCount then setMovies s movies'
          else (s, [])
        let (s2, ev2) := setLastSynced s1 date
        let (s3, evs, r) := syncLoop responses restDates movies' s2
        (s3, ev ++ ev1 ++ ev2 ++ evs, r)

/-- `syncMovies`: compute the pending dates; return at once when there are
none; otherwise read the collection and run the per-day loop. -/
def syncMovies (today : Int) (responses : Int → Remote) (s : BucketState) :
    BucketState × List Ev × Except SyncError Unit :=
  match getNextSyncDates today s with
  | (s1, ev1, .error e) => (s1, ev1, .error e)
  | (s1, ev1, .ok dates) =>
    if dates.length = 0 then (s1, ev1, .ok ())
    else
      match getMovies s1 with
      | (s2, ev2, .error e) => (s2, ev1 ++ ev2, .error e)
      | (s2, ev2, .ok movies) =>
        let (s3, ev3, r) := syncLoop responses dates movies s2
        (s3, ev1 ++ ev2 ++ ev3, r)

/-! ## Basic facts about the embedded definitions -/

/-- `rangeFrom f n` is the `n` consecutive integers starting at `f`. -/
theorem mem_rangeFrom {x fromDate : Int} {n : Nat} :
    x ∈ rangeFrom fromDate n ↔ fromDate ≤ x ∧ x < fromDate + n := by
  induction n generalizing fromDate with
  | zero => simp [rangeFrom]
  | succ n ih =>
    simp only [rangeFrom, List.mem_cons, ih]
    constructor
    · rintro (rfl | ⟨h1, h2⟩) <;> constructor <;> omega
    · rintro ⟨h1, h2⟩
      rcases eq_or_lt_of_le h1 with rfl | h1
      · exact Or.inl rfl
      · exact Or.inr ⟨by omega, by omega⟩

theorem rangeFrom_pairwise_lt (fromDate : Int) (n : Nat) :
    (rangeFrom fromDate n).Pairwise (· < ·) := by
  induction n generalizing fromDate with
  | zero => simp [rangeFrom]
  | succ n ih =>
    refine List.Pairwise.cons ?_ (ih (fromDate + 1))
    intro x hx
    have := mem_rangeFrom.1 hx
    omega

/-- Fidelity of the `getDateRange` encoding to the source's `while` loop:
it satisfies the loop's defining recurrence. -/
theorem getDateRange_loop (fromDate untilDate : Int) :
    getDateRange fromDate untilDate =
      if fromDate ≤ untilDate then
        fromDate :: getDateRange (fromDate + 1) untilDate
      else [] := by
  unfold getDateRange
  split
  · have h1 : (untilDate + 1 - fromDate).toNat =
        (untilDate + 1 - (fromDate + 1)).toNat + 1 := by omega
    rw [h1, rangeFrom]
  · have h1 : (untilDate + 1 - fromDate).toNat = 0 := by omega
    rw [h1, rangeFrom]

theorem mem_getDateRange {x fromDate untilDate : Int} :
    x ∈ getDateRange fromDate untilDate ↔ fromDate ≤ x ∧ x ≤ untilDate := by
  unfold getDateRange
  rw [mem_rangeFrom]
  omega

theorem getDateRange_pairwise_lt (fromDate untilDate : Int) :
    (getDateRange fromDate untilDate).Pairwise (· < ·) :=
  rangeFrom_pairwise_lt _ _

/-- In a strictly increasing list, every member is at most the last
element. -/
theorem mem_le_getLast_of_pairwise_lt :
    ∀ {l : List Int}, l.Pairwise (· < ·) → ∀ {x : Int}, x ∈ l →
      ∃ w, l.getLast? = some w ∧ x ≤ w := by
  intro l
  induction l with
  | nil => intro _ x hx; cases hx
  | cons a t ih =>
    intro hp x hx
    cases t with
    | nil =>
      simp only [List.mem_singleton] at hx
      exact ⟨a, rfl, le_of_eq hx⟩
    | cons b t' =>
      have hp' : (b :: t').Pairwise (· < ·) := (List.pairwise_cons.1 hp).2
      rcases List.mem_cons.1 hx with rfl | hx'
      · rcases ih hp' (List.mem_cons_self b t') with ⟨w, hw, hbw⟩
        have hab : x < b := (List.pairwise_cons.1 hp).1 b (List.mem_cons_self b t')
        exact ⟨w, by rw [List.getLast?_cons_cons]; exact hw,
          le_trans (le_of_lt hab) hbw⟩
      · rcases ih hp' hx' with ⟨w, hw, hxw⟩
        exact ⟨w, by rw [List.getLast?_cons_cons]; exact hw, hxw⟩

/-- A movie encoded by `JSON.stringify` parses back to itself. -/
theorem parseMovie_encodeMovie (m : Movie) :
    parseMovie (encodeMovie m) = some m := rfl

/-- An encoded collection parses back to itself, so a collection written by
`setMovies` is read back unchanged by `getMovies`. -/
theorem parseMovies_encodeMovies (ms : List Movie) :
    parseMovies (encodeMovies ms) = some ms := by
  induction ms with
  | nil => rfl
  | cons m t ih =>
    simp only [parseMovies, encodeMovies, List.map_cons, parseMovieList,
      parseMovie_encodeMovie] at *
    simp [ih]

/-- `appendUnique` when the incoming identifier is already present: the
collection is returned unchanged. -/
theorem appendUnique_eq_of_mem {movies : List Movie} {newMovie : Movie}
    (h : ∃ m ∈ movies, m.imdb_id = newMovie.imdb_id) :
    appendUnique movies newMovie = movies := by
  unfold appendUnique
  rcases h with ⟨m, hm, hid⟩
  have : movies.find? (fun movie => movie.imdb_id == newMovie.imdb_id) ≠ none := by
    intro hnone
    have := List.find?_eq_none.1 hnone m hm
    simp [hid] at this
  rcases Option.ne_none_iff_exists.1 this with ⟨m', hm'⟩
  rw [← hm']

/-- `appendUnique` when the incoming identifier is absent: the incoming
movie is appended at the end. -/
theorem appendUnique_eq_append {movies : List Movie} {newMovie : Movie}
    (h : ∀ m ∈ movies, m.imdb_id ≠ newMovie.imdb_id) :
    appendUnique movies newMovie = movies ++ [newMovie] := by
  unfold appendUnique
  have : movies.find? (fun movie => movie.imdb_id == newMovie.imdb_id) = none := by
    rw [List.find?_eq_none]
    intro m hm
    simp [h m hm]
  rw [this]

/-- `appendUnique` only ever appends: the existing collection is a prefix
of the result. -/
theorem appendUnique_extends (movies : List Movie) (newMovie : Movie) :
    ∃ t, appendUnique movies newMovie = movies ++ t := by
  unfold appendUnique
  cases movies.find? (fun movie => movie.imdb_id == newMovie.imdb_id) with
  | none => exact ⟨[newMovie], rfl⟩
  | some _ => exact ⟨[], by simp⟩

/-- Folding `appendUnique` over a batch only ever appends. -/
theorem foldl_appendUnique_extends (batch : List Movie) (movies : List Movie) :
    ∃ t, batch.foldl appendUnique movies = movies ++ t := by
  induction batch generalizing movies with
  | nil => exact ⟨[], by simp⟩
  | cons b rest ih =>
    rcases appendUnique_extends movies b with ⟨t1, h1⟩
    rcases ih (appendUnique movies b) with ⟨t2, h2⟩
    refine ⟨t1 ++ t2, ?_⟩
    rw [List.foldl_cons, h2, h1, List.append_assoc]

/-- The dedup invariant: no two records of the collection share an
`imdb_id`. -/
def uniqueIds (movies : List Movie) : Prop :=
  movies.Pairwise (fun a b => a.imdb_id ≠ b.imdb_id)

instance (movies : List Movie) : Decidable (uniqueIds movies) :=
  inferInstanceAs (Decidable (movies.Pairwise _))

/-- A single `appendUnique` step preserves the dedup invariant. -/
theorem appendUnique_uniqueIds {movies : List Movie} (newMovie : Movie)
    (h : uniqueIds movies) : uniqueIds (appendUnique movies newMovie) := by
  unfold appendUnique
  cases hf : movies.find? (fun movie => movie.imdb_id == newMovie.imdb_id) with
  | some _ => exact h
  | none =>
    have habs := List.find?_eq_none.1 hf
    unfold uniqueIds
    rw [List.pairwise_append]
    refine ⟨h, by simp, ?_⟩
    intro a ha b hb
    simp only [List.mem_singleton] at hb
    subst hb
    have := habs a ha
    simpa using this

/-- Folding `appendUnique` over any batch preserves the dedup invariant. -/
theorem foldl_appendUnique_uniqueIds (batch : List Movie)
    {movies : List Movie} (h : uniqueIds movies) :
    uniqueIds (batch.foldl appendUnique movies) := by
  induction batch generalizing movies with
  | nil => exact h
  | cons b rest ih => exact ih (appendUnique_uniqueIds b h)

/-! ## Per-day fetch outcomes and `syncLoop` step lemmas -/

/-- The per-day fetch did not throw: it returned either a movie array or
`null` (`Unavailable`). -/
def dayOk (responses : Int → Remote) (d : Int) : Prop :=
  ∃ o, (fetchMovies responses d).2 = .ok o

/-- The per-day fetch returned a movie array (so the loop advances the
checkpoint to this day): a success-status response, a 404, or a success
response with a body that fails to parse as JSON. -/
def daySucceeds (responses : Int → Remote) (d : Int) : Bool :=
  match (fetchMovies responses d).2 with
  | .ok (some _) => true
  | _ => false

/-- The in-memory `movies` array after the loop has processed the given
days: each day whose fetch returned an array folds it in via
`appendUnique`. -/
def moviesAfter (responses : Int → Remote) (dates : List Int)
    (movies : List Movie) : List Movie :=
  dates.foldl (fun ms d =>
    match (fetchMovies responses d).2 with
    | .ok (some newMovies) => newMovies.foldl appendUnique ms
    | _ => ms) movies

/-- Each per-day fetch performs exactly one HTTP request, for its own
day. -/
theorem fetchMovies_trace (responses : Int → Remote) (date : Int) :
    (fetchMovies responses date).1 = [.fetch date] := by
  unfold fetchMovies
  cases responses date with
  | transportError => rfl
  | response status body =>
    dsimp only
    split
    · split <;> rfl
    · cases body with
      | malformed => rfl
      | json j => cases hpj : parseMovies j <;> simp [hpj]

theorem syncLoop_nil (responses : Int → Remote) (movies : List Movie)
    (s : BucketState) : syncLoop responses [] movies s = (s, [], .ok ()) := rfl

/-- Loop step, thrown error: the run aborts with the bucket unchanged by
this iteration. -/
theorem syncLoop_cons_error {responses : Int → Remote} {date : Int}
    {e : SyncError} (rest : List Int) (movies : List Movie) (s : BucketState)
    (h : (fetchMovies responses date).2 = .error e) :
    syncLoop responses (date :: rest) movies s = (s, [.fetch date], .error e) := by
  have ht := fetchMovies_trace responses date
  rcases hf : fetchMovies responses date with ⟨ev, res⟩
  rw [hf] at ht h
  dsimp only at ht h
  subst ht h
  simp only [syncLoop, hf]

/-- Loop step, `Unavailable` day: skip merge and checkpoint write and
continue with the rest of the window. -/
theorem syncLoop_cons_unavailable {responses : Int → Remote} {date : Int}
    (rest : List Int) (movies : List Movie) (s : BucketState)
    (h : (fetchMovies responses date).2 = .ok none) :
    syncLoop responses (date :: rest) movies s =
      ((syncLoop responses rest movies s).1,
       .fetch date :: (syncLoop responses rest movies s).2.1,
       (syncLoop responses rest movies s).2.2) := by
  have ht := fetchMovies_trace responses date
  rcases hf : fetchMovies responses date with ⟨ev, res⟩
  rw [hf] at ht h
  dsimp only at ht h
  subst ht h
  simp only [syncLoop, hf, List.singleton_append]

/-- Loop step, successful day: fold the fetched array in, write the
collection when it grew, write the checkpoint, continue. -/
theorem syncLoop_cons_success {responses : Int → Remote} {date : Int}
    {newMovies : List Movie} (rest : List Int) (movies : List Movie)
    (s : BucketState)
    (h : (fetchMovies responses date).2 = .ok (some newMovies)) :
    syncLoop responses (date :: rest) movies s =
      (let movies' := newMovies.foldl appendUnique movies
       let w := if movies'.length > movies.length then setMovies s movies'
                else (s, [])
       let w2 := setLastSynced w.1 date
       ((syncLoop responses rest movies' w2.1).1,
        .fetch date :: (w.2 ++ w2.2 ++ (syncLoop responses rest movies' w2.1).2.1),
        (syncLoop responses rest movies' w2.1).2.2)) := by
  have ht := fetchMovies_trace responses date
  rcases hf : fetchMovies responses date with ⟨ev, res⟩
  rw [hf] at ht h
  dsimp only at ht h
  subst ht h
  simp only [syncLoop, hf, List.singleton_append, List.cons_append, List.append_assoc,
    List.nil_append]

/-- A loop over days none of whose fetches throws completes successfully,
and the final persisted checkpoint is the last day whose fetch returned an
array — or the prior checkpoint when no day's did. -/
theorem syncLoop_all_ok (responses : Int → Remote) (dates : List Int) :
    ∀ movies s, (∀ d ∈ dates, dayOk responses d) →
      (syncLoop responses dates movies s).2.2 = .ok () ∧
      (syncLoop responses dates movies s).1.lastSyncedBlob =
        ((dates.filter (fun d => daySucceeds responses d)).getLast?).elim
          s.lastSyncedBlob some := by
  induction dates with
  | nil => intro movies s _; exact ⟨rfl, rfl⟩
  | cons date rest ih =>
    intro movies s hall
    rcases hall date (List.mem_cons_self _ _) with ⟨o, ho⟩
    cases o with
    | none =>
      have hds : daySucceeds responses date = false := by
        unfold daySucceeds; rw [ho]
      rw [syncLoop_cons_unavailable rest movies s ho]
      have hrest := ih movies s (fun d hd => hall d (List.mem_cons_of_mem _ hd))
      simpa only [List.filter_cons, hds, Bool.false_eq_true, if_false] using hrest
    | some newMovies =>
      have hds : daySucceeds responses date = true := by
        unfold daySucceeds; rw [ho]
      rw [syncLoop_cons_success rest movies s ho]
      dsimp only
      rcases ih (newMovies.foldl appendUnique movies)
          (setLastSynced (if (newMovies.foldl appendUnique movies).length >
              movies.length then setMovies s (newMovies.foldl appendUnique movies)
            else (s, [])).1 date).1
          (fun d hd => hall d (List.mem_cons_of_mem _ hd)) with ⟨h1, h2⟩
      refine ⟨h1, ?_⟩
      rw [h2]
      simp only [setLastSynced, List.filter_cons, hds, if_true]
      cases hfr : (rest.filter (fun d => daySucceeds responses d)) with
      | nil => rfl
      | cons a t =>
        rw [List.getLast?_cons_cons]
        obtain ⟨w, hw⟩ : ∃ w, (a :: t).getLast? = some w :=
          ⟨_, List.getLast?_eq_getLast_of_ne_nil (by simp)⟩
        rw [hw, Option.elim_some, Option.elim_some]

/-- Every event of the loop's trace is an HTTP fetch of a window day, a
checkpoint write of a window day whose fetch returned an array, or a
collection write of a collection extending the in-memory one. -/
theorem syncLoop_trace_mem (responses : Int → Remote) (dates : List Int) :
    ∀ movies s y, y ∈ (syncLoop responses dates movies s).2.1 →
      (∃ d ∈ dates, y = Ev.fetch d) ∨
      (∃ d ∈ dates, daySucceeds responses d = true ∧ y = Ev.putLastSynced d) ∨
      (∃ ms, (∃ t, ms = movies ++ t) ∧ y = Ev.putMovies ms) := by
  induction dates with
  | nil => intro movies s y h; simp [syncLoop_nil] at h
  | cons date rest ih =>
    intro movies s y h
    rcases hres : (fetchMovies responses date).2 with e | o
    · rw [syncLoop_cons_error rest movies s hres] at h
      rcases List.mem_singleton.1 h with rfl
      exact Or.inl ⟨date, List.mem_cons_self _ _, rfl⟩
    · cases o with
      | none =>
        rw [syncLoop_cons_unavailable rest movies s hres] at h
        dsimp only at h
        rcases List.mem_cons.1 h with rfl | h'
        · exact Or.inl ⟨date, List.mem_cons_self _ _, rfl⟩
        · rcases ih movies s y h' with ⟨d, hd, hy⟩ | ⟨d, hd, hs, hy⟩ | hm
          · exact Or.inl ⟨d, List.mem_cons_of_mem _ hd, hy⟩
          · exact Or.inr (Or.inl ⟨d, List.mem_cons_of_mem _ hd, hs, hy⟩)
          · exact Or.inr (Or.inr hm)
      | some newMovies =>
        have hds : daySucceeds responses date = true := by
          unfold daySucceeds; rw [hres]
        rw [syncLoop_cons_success rest movies s hres] at h
        dsimp only at h
        rcases List.mem_cons.1 h with rfl | h'
        · exact Or.inl ⟨date, List.mem_cons_self _ _, rfl⟩
        rcases List.mem_append.1 h' with h2 | h3
        · rcases List.mem_append.1 h2 with hw | hw2
          · have hpm : y = Ev.putMovies (newMovies.foldl appendUnique movies) := by
              split at hw
              · rcases List.mem_singleton.1 hw with rfl; rfl
              · simp at hw
            rcases foldl_appendUnique_extends newMovies movies with ⟨t, ht⟩
            exact Or.inr (Or.inr ⟨_, ⟨t, ht⟩, hpm⟩)
          · rcases List.mem_singleton.1 hw2 with rfl
            exact Or.inr (Or.inl ⟨date, List.mem_cons_self _ _, hds, rfl⟩)
        · rcases ih (newMovies.foldl appendUnique movies) _ y h3 with
            ⟨d, hd, hy⟩ | ⟨d, hd, hs, hy⟩ | ⟨ms, ⟨t, ht⟩, hy⟩
          · exact Or.inl ⟨d, List.mem_cons_of_mem _ hd, hy⟩
          · exact Or.inr (Or.inl ⟨d, List.mem_cons_of_mem _ hd, hs, hy⟩)
          · rcases foldl_appendUnique_extends newMovies movies with ⟨t0, ht0⟩
            refine Or.inr (Or.inr ⟨ms, ⟨t0 ++ t, ?_⟩, hy⟩)
            rw [ht, ht0, List.append_assoc]

/-- Also for aborted loops: the final persisted checkpoint is either the
prior one or some day of the window. -/
theorem syncLoop_lastSynced_cases (responses : Int → Remote) (dates : List Int) :
    ∀ movies s,
      (syncLoop responses dates movies s).1.lastSyncedBlob = s.lastSyncedBlob ∨
      ∃ x ∈ dates, (syncLoop responses dates movies s).1.lastSyncedBlob = some x := by
  induction dates with
  | nil => intro movies s; exact Or.inl rfl
  | cons date rest ih =>
    intro movies s
    rcases hres : (fetchMovies responses date).2 with e | o
    · rw [syncLoop_cons_error rest movies s hres]
      exact Or.inl rfl
    · cases o with
      | none =>
        rw [syncLoop_cons_unavailable rest movies s hres]
        dsimp only
        rcases ih movies s with h | ⟨x, hx, h⟩
        · exact Or.inl h
        · exact Or.inr ⟨x, List.mem_cons_of_mem _ hx, h⟩
      | some newMovies =>
        rw [syncLoop_cons_success rest movies s hres]
        dsimp only
        rcases ih (newMovies.foldl appendUnique movies)
            (setLastSynced (if (newMovies.foldl appendUnique movies).length >
                movies.length then
                setMovies s (newMovies.foldl appendUnique movies)
              else (s, [])).1 date).1 with h | ⟨x, hx, h⟩
        · exact Or.inr ⟨date, List.mem_cons_self _ _, h⟩
        · exact Or.inr ⟨x, List.mem_cons_of_mem _ hx, h⟩

theorem moviesAfter_nil (responses : Int → Remote) (movies : List Movie) :
    moviesAfter responses [] movies = movies := rfl

theorem moviesAfter_cons (responses : Int → Remote) (date : Int)
    (rest : List Int) (movies : List Movie) :
    moviesAfter responses (date :: rest) movies =
      moviesAfter responses rest
        (match (fetchMovies responses date).2 with
         | .ok (some newMovies) => newMovies.foldl appendUnique movies
         | _ => movies) := rfl

/-- Splitting the loop after a prefix of days none of whose fetches throws:
the loop runs the prefix, then the remaining days from the resulting bucket
and in-memory collection. -/
theorem syncLoop_append (responses : Int → Remote) (pre : List Int) :
    ∀ restDates movies s, (∀ d ∈ pre, dayOk responses d) →
      syncLoop responses (pre ++ restDates) movies s =
        ((syncLoop responses restDates (moviesAfter responses pre movies)
            (syncLoop responses pre movies s).1).1,
         (syncLoop responses pre movies s).2.1 ++
           (syncLoop responses restDates (moviesAfter responses pre movies)
             (syncLoop responses pre movies s).1).2.1,
         (syncLoop responses restDates (moviesAfter responses pre movies)
           (syncLoop responses pre movies s).1).2.2) := by
  induction pre with
  | nil =>
    intro restDates movies s _
    simp [syncLoop_nil, moviesAfter_nil]
  | cons date rest ih =>
    intro restDates movies s hall
    rcases hall date (List.mem_cons_self _ _) with ⟨o, ho⟩
    have hrest : ∀ d ∈ rest, dayOk responses d :=
      fun d hd => hall d (List.mem_cons_of_mem _ hd)
    cases o with
    | none =>
      rw [List.cons_append, syncLoop_cons_unavailable (rest ++ restDates) movies s ho,
        syncLoop_cons_unavailable rest movies s ho, moviesAfter_cons, ho]
      dsimp only
      rw [ih restDates movies s hrest]
      simp [List.cons_append]
    | some newMovies =>
      rw [List.cons_append, syncLoop_cons_success (rest ++ restDates) movies s ho,
        syncLoop_cons_success rest movies s ho, moviesAfter_cons, ho]
      dsimp only
      rw [ih restDates (newMovies.foldl appendUnique movies)
        (setLastSynced (if (newMovies.foldl appendUnique movies).length >
            movies.length then
            setMovies s (newMovies.foldl appendUnique movies)
          else (s, [])).1 date).1 hrest]
      simp [List.cons_append, List.append_assoc]

/-! ## Unfolding lemmas for the orchestrator -/

theorem getMovies_lastSynced (s : BucketState) :
    (getMovies s).1.lastSyncedBlob = s.lastSyncedBlob := by
  rcases hm : s.moviesBlob with _ | (_ | j)
  · simp [getMovies, hm, setMovies]
  · simp [getMovies, hm]
  · rcases hp : parseMovies j with _ | ms <;> simp [getMovies, hm, hp]

theorem getMovies_parsed {s : BucketState} {j : Json} {ms : List Movie}
    (hm : s.moviesBlob = some (.rawJson j)) (hp : parseMovies j = some ms) :
    getMovies s = (s, [.getMovies], .ok ms) := by
  simp [getMovies, hm, hp]

theorem getLastSynced_some {s : BucketState} {c : Int}
    (h : s.lastSyncedBlob = some c) :
    getLastSynced s = (s, [.getLastSynced], c) := by
  simp [getLastSynced, h]

/-- With a persisted checkpoint strictly after yesterday, computing the
window throws `"Invalid last sync date"` after only the checkpoint read. -/
theorem getNextSyncDates_invalid {today : Int} {s : BucketState} {c : Int}
    (h : s.lastSyncedBlob = some c) (hc : today - 1 < c) :
    getNextSyncDates today s = (s, [.getLastSynced], .error .invalidCheckpoint) := by
  unfold getNextSyncDates
  rw [getLastSynced_some h]
  dsimp only
  unfold getSyncUntil getLatestSync
  rw [if_pos (by omega : c > today - 1)]

/-- With a persisted checkpoint not after yesterday, the window is the days
strictly after the checkpoint up to `min(checkpoint + 7, yesterday)`. -/
theorem getNextSyncDates_valid {today : Int} {s : BucketState} {c : Int}
    (h : s.lastSyncedBlob = some c) (hc : c ≤ today - 1) :
    getNextSyncDates today s = (s, [.getLastSynced],
      .ok (getDateRange (c + 1)
        (if c + 7 > today - 1 then today - 1 else c + 7))) := by
  unfold getNextSyncDates
  rw [getLastSynced_some h]
  dsimp only
  unfold getSyncUntil getLatestSync
  rw [if_neg (by omega : ¬ c > today - 1)]
  dsimp only
  by_cases h7 : c + 7 > today - 1
  · rw [if_pos h7, if_pos h7]
  · rw [if_neg h7, if_neg h7]

/-- A run whose persisted checkpoint equals yesterday: the window is empty
and the run returns after the single checkpoint read, changing nothing. -/
theorem syncMovies_empty_window {today : Int} {responses : Int → Remote}
    {s : BucketState} {c : Int}
    (hcp : s.lastSyncedBlob = some c) (hc : c = today - 1) :
    syncMovies today responses s = (s, [.getLastSynced], .ok ()) := by
  subst hc
  unfold syncMovies
  rw [getNextSyncDates_valid hcp (le_refl _)]
  have hdates : getDateRange (today - 1 + 1)
      (if today - 1 + 7 > today - 1 then today - 1 else today - 1 + 7) = [] := by
    rw [if_pos (by omega)]
    rw [getDateRange_loop, if_neg (by omega)]
  rw [hdates]
  rfl

/-- A run whose persisted checkpoint is strictly after yesterday aborts
with the checkpoint error after the single checkpoint read, before any
fetch or write. -/
theorem syncMovies_invalid {today : Int} {responses : Int → Remote}
    {s : BucketState} {c : Int}
    (hcp : s.lastSyncedBlob = some c) (hc : today - 1 < c) :
    syncMovies today responses s = (s, [.getLastSynced], .error .invalidCheckpoint) := by
  unfold syncMovies
  rw [getNextSyncDates_invalid hcp hc]

/-- A run with a valid persisted checkpoint, a nonempty window and a
readable persisted collection is the per-day loop, after the two initial
reads. -/
theorem syncMovies_run (today : Int) (responses : Int → Remote)
    {s : BucketState} {c : Int} {j : Json} {ms : List Movie}
    (hcp : s.lastSyncedBlob = some c) (hc : c ≤ today - 1)
    (hmb : s.moviesBlob = some (.rawJson j)) (hp : parseMovies j = some ms)
    (hne : getDateRange (c + 1)
      (if c + 7 > today - 1 then today - 1 else c + 7) ≠ []) :
    syncMovies today responses s =
      ((syncLoop responses (getDateRange (c + 1)
          (if c + 7 > today - 1 then today - 1 else c + 7)) ms s).1,
       .getLastSynced :: .getMovies :: (syncLoop responses (getDateRange (c + 1)
          (if c + 7 > today - 1 then today - 1 else c + 7)) ms s).2.1,
       (syncLoop responses (getDateRange (c + 1)
          (if c + 7 > today - 1 then today - 1 else c + 7)) ms s).2.2) := by
  unfold syncMovies
  rw [getNextSyncDates_valid hcp hc]
  dsimp only
  rw [if_neg (by simpa [List.length_eq_zero] using hne), getMovies_parsed hmb hp]
  rfl

theorem getDateRange_eq_nil {fromDate untilDate : Int} :
    getDateRange fromDate untilDate = [] ↔ untilDate < fromDate := by
  constructor
  · intro h
    by_contra hlt
    push_neg at hlt
    rw [getDateRange_loop, if_pos hlt] at h
    exact List.cons_ne_nil _ _ h
  · intro h
    rw [getDateRange_loop, if_neg (by omega)]

/-! ## Claims -/

/-- C2: for every date, the per-day fetch maps HTTP outcomes as specified:
a 404 response yields an empty collection; any other non-success status
yields `Unavailable` (`null`/`none`); a success-status response whose body
fails to parse as JSON yields an empty collection — in each case without
raising an error. -/
theorem C2_fetch_day_outcome_map (responses : Int → Remote) (d : Int)
    (status : Nat) (body : Body) (h : responses d = .response status body) :
    (status = 404 → fetchMovies responses d = ([.fetch d], .ok (some []))) ∧
    (isOk status = false → status ≠ 404 →
      fetchMovies responses d = ([.fetch d], .ok none)) ∧
    (isOk status = true → body = .malformed →
      fetchMovies responses d = ([.fetch d], .ok (some []))) := by
  refine ⟨?_, ?_, ?_⟩
  · rintro rfl
    simp [fetchMovies, h, isOk]
  · intro hok h404
    simp [fetchMovies, h, hok, h404]
  · rintro hok rfl
    simp [fetchMovies, h, hok]

/-- Witness for C2: the three outcome classes at concrete responses. -/
theorem C2_witness :
    (fetchMovies (fun _ => .response 404 (.json .null)) 0 =
      ([.fetch 0], .ok (some []))) ∧
    (fetchMovies (fun _ => .response 500 (.json .null)) 0 =
      ([.fetch 0], .ok none)) ∧
    (fetchMovies (fun _ => .response 200 .malformed) 0 =
      ([.fetch 0], .ok (some []))) :=
  ⟨(C2_fetch_day_outcome_map (fun _ => .response 404 (.json .null)) 0 404
      (.json .null) rfl).1 rfl,
   (C2_fetch_day_outcome_map (fun _ => .response 500 (.json .null)) 0 500
      (.json .null) rfl).2.1 (by decide) (by decide),
   (C2_fetch_day_outcome_map (fun _ => .response 200 .malformed) 0 200
      .malformed rfl).2.2 (by decide) rfl⟩

/-- C7: `appendUnique` is a pure function of its arguments (the embedding
is a Lean function, and the source returns fresh arrays built by spreads,
never mutating its argument); when some existing record carries the
incoming record's `imdb_id` the result equals the existing collection
(first-seen wins), otherwise it is the existing collection with the
incoming record appended at the end. -/
theorem C7_appendUnique_spec (movies : List Movie) (newMovie : Movie) :
    ((∃ m ∈ movies, m.imdb_id = newMovie.imdb_id) →
      appendUnique movies newMovie = movies) ∧
    ((¬ ∃ m ∈ movies, m.imdb_id = newMovie.imdb_id) →
      appendUnique movies newMovie = movies ++ [newMovie]) :=
  ⟨fun h => appendUnique_eq_of_mem h,
   fun h => appendUnique_eq_append (fun m hm heq => h ⟨m, hm, heq⟩)⟩

/-- Witness for C7: a duplicate identifier is dropped, a fresh one is
appended. -/
theorem C7_witness :
    appendUnique [Movie.mk "A" "tt1" "pa"] (Movie.mk "B" "tt1" "pb") =
      [Movie.mk "A" "tt1" "pa"] ∧
    appendUnique [Movie.mk "A" "tt1" "pa"] (Movie.mk "C" "tt2" "pc") =
      [Movie.mk "A" "tt1" "pa", Movie.mk "C" "tt2" "pc"] :=
  ⟨(C7_appendUnique_spec [Movie.mk "A" "tt1" "pa"] (Movie.mk "B" "tt1" "pb")).1
      ⟨Movie.mk "A" "tt1" "pa", by decide, rfl⟩,
   (C7_appendUnique_spec [Movie.mk "A" "tt1" "pa"] (Movie.mk "C" "tt2" "pc")).2
      (by decide)⟩

/-- C8 as stated is false: it quantifies over folds of the merge starting
from any collection, but a start collection that already carries two
records with the same `imdb_id` keeps them through the fold. -/
theorem C8_counterexample :
    ¬ uniqueIds (List.foldl appendUnique
      [Movie.mk "A" "tt1" "pa", Movie.mk "B" "tt1" "pb"]
      [Movie.mk "C" "tt2" "pc"]) := by decide

/-- C8 amended: every collection produced by folding the merge over any
record sequence, starting from a collection whose identifiers are pairwise
distinct (in particular the empty collection), has pairwise-distinct
identifiers. -/
theorem C8_amended_dedup_invariant (start incoming : List Movie)
    (h : uniqueIds start) : uniqueIds (incoming.foldl appendUnique start) :=
  foldl_appendUnique_uniqueIds incoming h

/-- Witness for C8 amended: folding two same-identifier records into the
empty collection yields distinct identifiers. -/
theorem C8_amended_witness :
    uniqueIds (List.foldl appendUnique []
      [Movie.mk "A" "tt1" "pa", Movie.mk "B" "tt1" "pb"]) :=
  C8_amended_dedup_invariant []
    [Movie.mk "A" "tt1" "pa", Movie.mk "B" "tt1" "pb"] (by decide)

/-- C6: with a persisted checkpoint strictly after yesterday, synchronize
raises the invalid-checkpoint error with the single checkpoint read as its
entire I/O trace — before any fetch or write, leaving the bucket unchanged;
with the checkpoint equal to yesterday it does not raise and terminates
with an empty window and no further I/O. -/
theorem C6_future_checkpoint_raises (today : Int) (responses : Int → Remote)
    (s : BucketState) (c : Int) (hcp : s.lastSyncedBlob = some c) :
    (today - 1 < c →
      syncMovies today responses s =
        (s, [.getLastSynced], .error .invalidCheckpoint)) ∧
    (c = today - 1 →
      syncMovies today responses s = (s, [.getLastSynced], .ok ())) :=
  ⟨fun h => syncMovies_invalid hcp h, fun h => syncMovies_empty_window hcp h⟩

/-- Witness for C6 at a concrete clock and bucket. -/
theorem C6_witness :
    (syncMovies 100 (fun _ => .transportError) ⟨none, some 100⟩ =
      (⟨none, some 100⟩, [.getLastSynced], .error .invalidCheckpoint)) ∧
    (syncMovies 100 (fun _ => .transportError) ⟨none, some 99⟩ =
      (⟨none, some 99⟩, [.getLastSynced], .ok ())) :=
  ⟨(C6_future_checkpoint_raises 100 (fun _ => .transportError)
      ⟨none, some 100⟩ 100 rfl).1 (by decide),
   (C6_future_checkpoint_raises 100 (fun _ => .transportError)
      ⟨none, some 99⟩ 99 rfl).2 (by decide)⟩

/-- C5 as stated is false: its gloss equates “pending window empty” with
“Checkpoint ≥ yesterday”, but with a persisted checkpoint strictly after
yesterday (here 100 against yesterday 99) the run raises the
invalid-checkpoint error instead of terminating successfully. -/
theorem C5_counterexample :
    ((100 : Int) ≥ 100 - 1) ∧
    (syncMovies 100 (fun _ => .transportError) ⟨none, some 100⟩).2.2 =
      .error .invalidCheckpoint :=
  ⟨by decide, rfl⟩

/-- C5 amended: when the persisted checkpoint equals yesterday (the only
non-raising case of an empty pending window), synchronize terminates
successfully, changes no persisted state, and its whole I/O trace is the
single initial checkpoint read (within the two initial reads, with no
fetch and no write); consequently, re-running immediately — same clock,
same remote data — after a successful run that left the checkpoint at
yesterday changes no persisted state. -/
theorem C5_amended_empty_window_noop (today : Int) (responses : Int → Remote) :
    (∀ s c, s.lastSyncedBlob = some c → c = today - 1 →
      syncMovies today responses s = (s, [.getLastSynced], .ok ())) ∧
    (∀ s0 s1 tr, syncMovies today responses s0 = (s1, tr, .ok ()) →
      s1.lastSyncedBlob = some (today - 1) →
      syncMovies today responses s1 = (s1, [.getLastSynced], .ok ())) :=
  ⟨fun _ _ h1 h2 => syncMovies_empty_window h1 h2,
   fun _ _ _ _ h1 => syncMovies_empty_window h1 rfl⟩

/-- Witness for C5 amended: a concrete first run (checkpoint 98, clock 100)
catches up to yesterday, and the immediate second run changes nothing and
performs only the checkpoint read. -/
theorem C5_witness :
    syncMovies 100 (fun _ => Remote.response 200 (.json (.arr [])))
        ⟨some (.rawJson (.arr [])), some 99⟩ =
      (⟨some (.rawJson (.arr [])), some 99⟩, [.getLastSynced], .ok ()) :=
  (C5_amended_empty_window_noop 100
      (fun _ => Remote.response 200 (.json (.arr [])))).2
    ⟨some (.rawJson (.arr [])), some 98⟩
    ⟨some (.rawJson (.arr [])), some 99⟩
    [.getLastSynced, .getMovies, .fetch 99, .putLastSynced 99]
    (by rfl) rfl

/-- C4: with a persisted checkpoint `c` and yesterday more than seven days
ahead of it, the pending window is exactly the seven consecutive days
`c+1 … c+7` in ascending order, and a single run in which every windowed
fetch returns a movie array completes successfully with the checkpoint
advanced to exactly `c + 7`, not further. -/
theorem C4_window_bound (today : Int) (responses : Int → Remote)
    (s : BucketState) (c : Int) (j : Json) (ms : List Movie)
    (hcp : s.lastSyncedBlob = some c)
    (hmb : s.moviesBlob = some (.rawJson j)) (hp : parseMovies j = some ms)
    (hgap : today - 1 - c > 7)
    (hall : ∀ x ∈ getDateRange (c + 1) (c + 7), ∃ l,
      (fetchMovies responses x).2 = .ok (some l)) :
    getNextSyncDates today s = (s, [.getLastSynced],
      .ok [c + 1, c + 2, c + 3, c + 4, c + 5, c + 6, c + 7]) ∧
    (syncMovies today responses s).2.2 = .ok () ∧
    (syncMovies today responses s).1.lastSyncedBlob = some (c + 7) := by
  have hc : c ≤ today - 1 := by omega
  have h7 : (if c + 7 > today - 1 then today - 1 else c + 7) = c + 7 :=
    if_neg (by omega)
  have hseq : getDateRange (c + 1) (c + 7) =
      [c + 1, c + 2, c + 3, c + 4, c + 5, c + 6, c + 7] := by
    unfold getDateRange
    have ht : (c + 7 + 1 - (c + 1)).toNat = 7 := by omega
    rw [ht]
    simp only [rangeFrom]
    ring_nf
  rw [hseq] at hall
  have hwin : getNextSyncDates today s = (s, [.getLastSynced],
      .ok [c + 1, c + 2, c + 3, c + 4, c + 5, c + 6, c + 7]) := by
    rw [getNextSyncDates_valid hcp hc, h7, hseq]
  refine ⟨hwin, ?_⟩
  have hne : getDateRange (c + 1)
      (if c + 7 > today - 1 then today - 1 else c + 7) ≠ [] := by
    rw [h7, hseq]
    simp
  have hrun := syncMovies_run today responses hcp hc hmb hp hne
  rw [h7, hseq] at hrun
  rw [hrun]
  dsimp only
  have hallOk : ∀ d ∈ [c + 1, c + 2, c + 3, c + 4, c + 5, c + 6, c + 7],
      dayOk responses d := by
    intro d hd
    rcases hall d hd with ⟨l, hl⟩
    exact ⟨some l, hl⟩
  rcases syncLoop_all_ok responses
      [c + 1, c + 2, c + 3, c + 4, c + 5, c + 6, c + 7] ms s hallOk with
    ⟨hok2, hlast⟩
  refine ⟨hok2, ?_⟩
  rw [hlast]
  have hfilter : List.filter (fun d => daySucceeds responses d)
      [c + 1, c + 2, c + 3, c + 4, c + 5, c + 6, c + 7] =
      [c + 1, c + 2, c + 3, c + 4, c + 5, c + 6, c + 7] := by
    rw [List.filter_eq_self]
    intro a ha
    rcases hall a ha with ⟨l, hl⟩
    unfold daySucceeds
    rw [hl]
  rw [hfilter]
  rfl

/-- Witness for C4: checkpoint 0, clock 10 (nine days behind), every day
publishing an empty snapshot. -/
theorem C4_witness :
    getNextSyncDates 10 ⟨some (.rawJson (.arr [])), some 0⟩ =
      (⟨some (.rawJson (.arr [])), some 0⟩, [.getLastSynced],
        .ok [1, 2, 3, 4, 5, 6, 7]) ∧
    (syncMovies 10 (fun _ => .response 200 (.json (.arr [])))
      ⟨some (.rawJson (.arr [])), some 0⟩).2.2 = .ok () ∧
    (syncMovies 10 (fun _ => .response 200 (.json (.arr [])))
      ⟨some (.rawJson (.arr [])), some 0⟩).1.lastSyncedBlob = some 7 :=
  C4_window_bound 10 (fun _ => .response 200 (.json (.arr [])))
    ⟨some (.rawJson (.arr [])), some 0⟩ 0 (.arr []) [] rfl rfl rfl
    (by decide) (fun x _ => ⟨[], rfl⟩)

/-- The in-memory fixtures of claim C1: checkpoint 100 and clock 103, so
the pending days are 101 and 102; day 101 answers with status 500 and day
102 with an empty snapshot. -/
def C1responses : Int → Remote := fun d =>
  if d = 101 then .response 500 (.json (.arr []))
  else .response 200 (.json (.arr []))

def C1bucket : BucketState := ⟨some (.rawJson (.arr [])), some 100⟩

/-- C1 as stated is false at this input: pending day 101 returns a non-404
failure status (500) and no error is raised, yet later pending day 102
succeeds, so the checkpoint after the run is 102, which is not `< 101`. -/
theorem C1_counterexample :
    getNextSyncDates 103 C1bucket = (C1bucket, [.getLastSynced], .ok [101, 102]) ∧
    C1responses 101 = .response 500 (.json (.arr [])) ∧
    isOk 500 = false ∧ 500 ≠ 404 ∧
    (syncMovies 103 C1responses C1bucket).2.2 = .ok () ∧
    (syncMovies 103 C1responses C1bucket).1.lastSyncedBlob = some 102 ∧
    ¬ ((102 : Int) < 101) :=
  ⟨rfl, rfl, by decide, by decide, rfl, rfl, by decide⟩

/-- C1 amended: if pending day `d`'s fetch returns a non-404 failure status
and no pending day's fetch throws, then the run completes without raising,
no checkpoint write with value `d` ever occurs, and — provided no pending
day after `d` yields a movie array — the checkpoint after the run is
strictly less than `d`, unchanged from before `d` was processed.  (The
counterexample shows the original unconditional `< d` fails when a later
pending day succeeds.) -/
theorem C1_amended_non_advance (today : Int) (responses : Int → Remote)
    (s : BucketState) (c d : Int) (j : Json) (ms : List Movie)
    (status : Nat) (body : Body)
    (hcp : s.lastSyncedBlob = some c)
    (hmb : s.moviesBlob = some (.rawJson j)) (hp : parseMovies j = some ms)
    (hc : c ≤ today - 1)
    (hd : d ∈ getDateRange (c + 1)
      (if c + 7 > today - 1 then today - 1 else c + 7))
    (hresp : responses d = .response status body)
    (hnok : isOk status = false) (h404 : status ≠ 404)
    (hall : ∀ x ∈ getDateRange (c + 1)
      (if c + 7 > today - 1 then today - 1 else c + 7), dayOk responses x) :
    (syncMovies today responses s).2.2 = .ok () ∧
    Ev.putLastSynced d ∉ (syncMovies today responses s).2.1 ∧
    ((∀ x ∈ getDateRange (c + 1)
        (if c + 7 > today - 1 then today - 1 else c + 7),
        d < x → daySucceeds responses x = false) →
      ∃ c', (syncMovies today responses s).1.lastSyncedBlob = some c' ∧
        c' < d) := by
  have hne : getDateRange (c + 1)
      (if c + 7 > today - 1 then today - 1 else c + 7) ≠ [] :=
    List.ne_nil_of_mem hd
  have hfd : (fetchMovies responses d).2 = .ok none := by
    unfold fetchMovies
    rw [hresp]
    simp [hnok, h404]
  have hds : daySucceeds responses d = false := by
    unfold daySucceeds
    rw [hfd]
  have hcd : c < d := by
    have := (mem_getDateRange.1 hd).1
    omega
  have hrun := syncMovies_run today responses hcp hc hmb hp hne
  rcases syncLoop_all_ok responses
      (getDateRange (c + 1) (if c + 7 > today - 1 then today - 1 else c + 7))
      ms s hall with ⟨hok, hlast⟩
  refine ⟨by rw [hrun]; exact hok, ?_, ?_⟩
  · rw [hrun]
    intro hmem
    rcases List.mem_cons.1 hmem with heq | hmem2
    · exact Ev.noConfusion heq
    rcases List.mem_cons.1 hmem2 with heq | hmem3
    · exact Ev.noConfusion heq
    rcases syncLoop_trace_mem responses _ ms s _ hmem3 with
      ⟨x, _, heq⟩ | ⟨x, _, hsx, heq⟩ | ⟨ms1, _, heq⟩
    · exact Ev.noConfusion heq
    · have hxd : d = x := by injection heq
      rw [← hxd] at hsx
      rw [hds] at hsx
      exact Bool.noConfusion hsx
    · exact Ev.noConfusion heq
  · intro hnolater
    rw [hrun]
    dsimp only
    rw [hlast]
    cases hfl : (List.filter (fun x => daySucceeds responses x)
        (getDateRange (c + 1)
          (if c + 7 > today - 1 then today - 1 else c + 7))).getLast? with
    | none =>
      rw [Option.elim_none, hcp]
      exact ⟨c, rfl, hcd⟩
    | some w =>
      rw [Option.elim_some]
      refine ⟨w, rfl, ?_⟩
      have hwmem : w ∈ List.filter (fun x => daySucceeds responses x)
          (getDateRange (c + 1)
            (if c + 7 > today - 1 then today - 1 else c + 7)) := by
        rcases List.mem_getLast?_eq_getLast (Option.mem_def.2 hfl) with ⟨hh, hweq⟩
        rw [hweq]
        exact List.getLast_mem hh
      rcases List.mem_filter.1 hwmem with ⟨hwdates, hwsucc⟩
      rcases lt_trichotomy w d with h | h | h
      · exact h
      · exfalso
        rw [← h] at hds
        rw [hds] at hwsucc
        exact Bool.noConfusion hwsucc
      · exfalso
        have := hnolater w hwdates h
        rw [this] at hwsucc
        exact Bool.noConfusion hwsucc

/-- Witness for C1 amended: checkpoint 100, clock 102, the single pending
day 101 unavailable (status 500); the run completes, never writes
checkpoint 101, and leaves the checkpoint at 100 < 101. -/
theorem C1_witness :
    (syncMovies 102 (fun _ => Remote.response 500 (.json (.arr [])))
      ⟨some (.rawJson (.arr [])), some 100⟩).2.2 = .ok () ∧
    Ev.putLastSynced 101 ∉ (syncMovies 102
      (fun _ => Remote.response 500 (.json (.arr [])))
      ⟨some (.rawJson (.arr [])), some 100⟩).2.1 ∧
    ∃ c', (syncMovies 102 (fun _ => Remote.response 500 (.json (.arr [])))
      ⟨some (.rawJson (.arr [])), some 100⟩).1.lastSyncedBlob = some c' ∧
      c' < 101 :=
  have h := C1_amended_non_advance 102
    (fun _ => Remote.response 500 (.json (.arr [])))
    ⟨some (.rawJson (.arr [])), some 100⟩ 100 101 (.arr []) [] 500
    (.json (.arr [])) rfl rfl rfl (by decide) (by decide) rfl (by decide)
    (by decide)
    (by
      intro x hx
      have he : getDateRange (100 + 1)
          (if 100 + 7 > (102 : Int) - 1 then 102 - 1 else 100 + 7) = [101] := by
        decide
      rw [he] at hx
      have hxx : x = 101 := by simpa using hx
      subst hxx
      exact ⟨none, rfl⟩)
  ⟨h.1, h.2.1, h.2.2 (by decide)⟩

/-- Fixtures for claim C3: checkpoint 100, clock 103 (pending days 101 and
102); day 101 publishes one valid record, day 102 publishes a JSON body
that violates the record schema. -/
def C3responses : Int → Remote := fun d =>
  if d = 101 then .response 200 (.json (.arr [encodeMovie ⟨"A", "tt1", "pa"⟩]))
  else .response 200 (.json (.arr [.num 1]))

def C3bucket : BucketState := ⟨some (.rawJson (.arr [])), some 100⟩

/-- C3 as stated is false at this input: day 102's body parses but fails
the schema, synchronize fails with the validation error — but the persisted
checkpoint is 101 (day 101's committed write), not its pre-run value
100. -/
theorem C3_counterexample :
    (syncMovies 103 C3responses C3bucket).2.2 = .error .validationError ∧
    C3bucket.lastSyncedBlob = some 100 ∧
    (syncMovies 103 C3responses C3bucket).1.lastSyncedBlob = some 101 ∧
    some (101 : Int) ≠ some (100 : Int) :=
  ⟨rfl, rfl, rfl, by decide⟩

/-- C3 amended: when a pending day's fetch returns a success status with a
body that parses as JSON but violates the record schema, and the pending
days before it all returned values, synchronize fails with the validation
error, the remainder of the run is aborted (the trace stops at that day's
fetch, with no write for it or any later day), and the persisted Checkpoint
and Collection remain at the values committed before the failing day —
which are the pre-run values exactly when the failing day is the first
pending day. -/
theorem C3_amended_abort_on_malformed (today : Int) (responses : Int → Remote)
    (s : BucketState) (c d : Int) (j jd : Json) (ms : List Movie)
    (status : Nat) (pre rest : List Int)
    (hcp : s.lastSyncedBlob = some c) (hc : c ≤ today - 1)
    (hmb : s.moviesBlob = some (.rawJson j)) (hp : parseMovies j = some ms)
    (hwin : getDateRange (c + 1)
      (if c + 7 > today - 1 then today - 1 else c + 7) = pre ++ d :: rest)
    (hpre : ∀ x ∈ pre, dayOk responses x)
    (hresp : responses d = .response status (.json jd))
    (hok : isOk status = true)
    (hbad : parseMovies jd = none) :
    (syncMovies today responses s).2.2 = .error .validationError ∧
    (syncMovies today responses s).1 = (syncLoop responses pre ms s).1 ∧
    (syncMovies today responses s).2.1 =
      .getLastSynced :: .getMovies ::
        ((syncLoop responses pre ms s).2.1 ++ [.fetch d]) := by
  have herr : (fetchMovies responses d).2 = .error .validationError := by
    unfold fetchMovies
    rw [hresp]
    simp [hok, hbad]
  have hne : getDateRange (c + 1)
      (if c + 7 > today - 1 then today - 1 else c + 7) ≠ [] := by
    rw [hwin]
    simp
  have hrun := syncMovies_run today responses hcp hc hmb hp hne
  rw [hwin] at hrun
  rw [hrun, syncLoop_append responses pre (d :: rest) ms s hpre,
    syncLoop_cons_error rest (moviesAfter responses pre ms)
      (syncLoop responses pre ms s).1 herr]
  exact ⟨rfl, rfl, rfl⟩

/-- Witness for C3 amended, at the C3 fixtures (failing day 102 after the
committed day 101). -/
theorem C3_witness :
    (syncMovies 103 C3responses C3bucket).2.2 = .error .validationError ∧
    (syncMovies 103 C3responses C3bucket).1 =
      (syncLoop C3responses [101] [] C3bucket).1 ∧
    (syncMovies 103 C3responses C3bucket).2.1 =
      .getLastSynced :: .getMovies ::
        ((syncLoop C3responses [101] [] C3bucket).2.1 ++ [.fetch 102]) :=
  C3_amended_abort_on_malformed 103 C3responses C3bucket 100 102 (.arr [])
    (.arr [.num 1]) [] 200 [101] [] rfl (by decide) rfl rfl (by decide)
    (by
      intro x hx
      have hxx : x = 101 := by simpa using hx
      subst hxx
      exact ⟨some [⟨"A", "tt1", "pa"⟩], rfl⟩)
    rfl (by decide) rfl

theorem getLastSynced_moviesBlob (s : BucketState) :
    (getLastSynced s).1.moviesBlob = s.moviesBlob := by
  rcases hls : s.lastSyncedBlob with _ | c <;>
    simp [getLastSynced, hls, setLastSynced]

theorem getLastSynced_trace (s : BucketState) :
    ∀ y ∈ (getLastSynced s).2.1,
      y = Ev.getLastSynced ∨ ∃ x, y = Ev.putLastSynced x := by
  rcases hls : s.lastSyncedBlob with _ | c <;>
    simp [getLastSynced, hls, setLastSynced]

theorem getMovies_trace (s : BucketState) :
    ∀ y ∈ (getMovies s).2.1, y = Ev.getMovies ∨ ∃ l, y = Ev.putMovies l := by
  rcases hm : s.moviesBlob with _ | (_ | j)
  · simp [getMovies, hm, setMovies]
  · simp [getMovies, hm]
  · rcases hp : parseMovies j with _ | ms <;> simp [getMovies, hm, hp]

theorem getNextSyncDates_eq (today : Int) (s : BucketState) :
    getNextSyncDates today s =
      ((getLastSynced s).1, (getLastSynced s).2.1,
        match getSyncUntil today (getLastSynced s).2.2 with
        | .error e => .error e
        | .ok syncUntil =>
            .ok (getDateRange ((getLastSynced s).2.2 + 1) syncUntil)) := by
  unfold getNextSyncDates
  dsimp only
  rcases hsu : getSyncUntil today (getLastSynced s).2.2 with e | u <;> rfl

/-- Any collection write performed by a run whose persisted collection
reads back as `ms0` writes an extension of `ms0` (the run only appends). -/
theorem syncMovies_putMovies_extends (today : Int) (responses : Int → Remote)
    (s : BucketState) (j : Json) (ms0 : List Movie)
    (hmb : s.moviesBlob = some (.rawJson j)) (hp : parseMovies j = some ms0) :
    ∀ ms, Ev.putMovies ms ∈ (syncMovies today responses s).2.1 →
      ∃ t, ms = ms0 ++ t := by
  intro ms h
  have hblob1 : (getLastSynced s).1.moviesBlob = some (.rawJson j) := by
    rw [getLastSynced_moviesBlob, hmb]
  have hgmv : getMovies (getLastSynced s).1 =
      ((getLastSynced s).1, [.getMovies], .ok ms0) := getMovies_parsed hblob1 hp
  have htr := getLastSynced_trace s
  unfold syncMovies at h
  rw [getNextSyncDates_eq today s] at h
  rcases hsu : getSyncUntil today (getLastSynced s).2.2 with e | u
  · rw [hsu] at h
    dsimp only at h
    rcases htr _ h with heq | ⟨x, heq⟩ <;> exact Ev.noConfusion heq
  · rw [hsu] at h
    dsimp only at h
    by_cases hlen : (getDateRange ((getLastSynced s).2.2 + 1) u).length = 0
    · rw [if_pos hlen] at h
      dsimp only at h
      rcases htr _ h with heq | ⟨x, heq⟩ <;> exact Ev.noConfusion heq
    · rw [if_neg hlen, hgmv] at h
      dsimp only at h
      rcases List.mem_append.1 h with h12 | h3
      · rcases List.mem_append.1 h12 with h1 | h2
        · rcases htr _ h1 with heq | ⟨x, heq⟩ <;> exact Ev.noConfusion heq
        · have := List.mem_singleton.1 h2
          exact Ev.noConfusion this
      · rcases syncLoop_trace_mem responses _ ms0 (getLastSynced s).1 _ h3 with
          ⟨dd, _, heq⟩ | ⟨dd, _, _, heq⟩ | ⟨ms1, ⟨t, ht⟩, heq⟩
        · exact Ev.noConfusion heq
        · exact Ev.noConfusion heq
        · have hms : ms = ms1 := by injection heq
          exact ⟨t, by rw [hms, ht]⟩

/-- C10: the collection reader validates only the required string fields of
each record and never checks identifier uniqueness: for a persisted
`movies.json` holding two records that share `imdb_id` `"tt1"`, `getMovies`
succeeds and returns both duplicates as-is, and a subsequent run of
`syncMovies` — any clock, any remote world — keeps both records at the
front of every collection it writes. -/
theorem C10_duplicates_preserved (today : Int) (responses : Int → Remote)
    (cp : Option Int) :
    getMovies ⟨some (.rawJson (encodeMovies
        [⟨"A", "tt1", "pa"⟩, ⟨"B", "tt1", "pb"⟩])), cp⟩ =
      (⟨some (.rawJson (encodeMovies
          [⟨"A", "tt1", "pa"⟩, ⟨"B", "tt1", "pb"⟩])), cp⟩,
       [.getMovies], .ok [⟨"A", "tt1", "pa"⟩, ⟨"B", "tt1", "pb"⟩]) ∧
    ¬ uniqueIds [⟨"A", "tt1", "pa"⟩, ⟨"B", "tt1", "pb"⟩] ∧
    (∀ ms, Ev.putMovies ms ∈ (syncMovies today responses
        ⟨some (.rawJson (encodeMovies
          [⟨"A", "tt1", "pa"⟩, ⟨"B", "tt1", "pb"⟩])), cp⟩).2.1 →
      ∃ t, ms = ⟨"A", "tt1", "pa"⟩ :: ⟨"B", "tt1", "pb"⟩ :: t) := by
  refine ⟨getMovies_parsed rfl (parseMovies_encodeMovies _), by decide, ?_⟩
  intro ms h
  exact syncMovies_putMovies_extends today responses _ _ _ rfl
    (parseMovies_encodeMovies _) ms h

/-- Witness for C10: checkpoint 101, clock 103, day 102 publishing a fresh
record; the written collection starts with the two persisted duplicates. -/
theorem C10_witness :
    ∃ t, [Movie.mk "A" "tt1" "pa", Movie.mk "B" "tt1" "pb",
        Movie.mk "C" "tt3" "pc"] =
      Movie.mk "A" "tt1" "pa" :: Movie.mk "B" "tt1" "pb" :: t :=
  (C10_duplicates_preserved 103
      (fun _ => .response 200 (.json (.arr [encodeMovie ⟨"C", "tt3", "pc"⟩])))
      (some 101)).2.2
    [Movie.mk "A" "tt1" "pa", Movie.mk "B" "tt1" "pb", Movie.mk "C" "tt3" "pc"]
    (by decide)

/-- Any run — completed or aborted — from a bucket with a persisted
checkpoint leaves the checkpoint either unchanged or strictly advanced. -/
theorem syncMovies_lastSynced_cases (today : Int) (responses : Int → Remote)
    (s : BucketState) (c : Int) (hcp : s.lastSyncedBlob = some c) :
    (syncMovies today responses s).1.lastSyncedBlob = some c ∨
    ∃ x, c < x ∧ (syncMovies today responses s).1.lastSyncedBlob = some x := by
  by_cases hv : today - 1 < c
  · rw [syncMovies_invalid hcp hv]
    exact Or.inl hcp
  · push_neg at hv
    unfold syncMovies
    rw [getNextSyncDates_valid hcp hv]
    dsimp only
    by_cases hlen : (getDateRange (c + 1)
        (if c + 7 > today - 1 then today - 1 else c + 7)).length = 0
    · rw [if_pos hlen]
      exact Or.inl hcp
    · rw [if_neg hlen]
      rcases hgm : getMovies s with ⟨s2, ev2, r2⟩
      have hs2 : s2.lastSyncedBlob = some c := by
        have hmv := getMovies_lastSynced s
        rw [hgm] at hmv
        dsimp only at hmv
        rw [hmv, hcp]
      cases r2 with
      | error e => exact Or.inl hs2
      | ok ms0 =>
        dsimp only
        rcases syncLoop_lastSynced_cases responses
            (getDateRange (c + 1)
              (if c + 7 > today - 1 then today - 1 else c + 7)) ms0 s2 with
          h | ⟨x, hx, h⟩
        · rw [h]
          exact Or.inl hs2
        · refine Or.inr ⟨x, ?_, h⟩
          have := (mem_getDateRange.1 hx).1
          omega

/-- Every fetch issued by a run from a bucket with persisted checkpoint `c`
requests a day strictly after `c`. -/
theorem syncMovies_fetch_gt (today : Int) (responses : Int → Remote)
    (s : BucketState) (c : Int) (hcp : s.lastSyncedBlob = some c) :
    ∀ x, Ev.fetch x ∈ (syncMovies today responses s).2.1 → c < x := by
  intro x hx
  by_cases hv : today - 1 < c
  · rw [syncMovies_invalid hcp hv] at hx
    have := List.mem_singleton.1 hx
    exact Ev.noConfusion this
  · push_neg at hv
    unfold syncMovies at hx
    rw [getNextSyncDates_valid hcp hv] at hx
    dsimp only at hx
    by_cases hlen : (getDateRange (c + 1)
        (if c + 7 > today - 1 then today - 1 else c + 7)).length = 0
    · rw [if_pos hlen] at hx
      have := List.mem_singleton.1 hx
      exact Ev.noConfusion this
    · rw [if_neg hlen] at hx
      rcases hgm : getMovies s with ⟨s2, ev2, r2⟩
      rw [hgm] at hx
      have hev2 : ∀ y ∈ ev2, y = Ev.getMovies ∨ ∃ l, y = Ev.putMovies l := by
        have := getMovies_trace s
        rw [hgm] at this
        exact this
      cases r2 with
      | error e =>
        dsimp only at hx
        rcases List.mem_append.1 hx with h1 | h2
        · have := List.mem_singleton.1 h1
          exact Ev.noConfusion this
        · rcases hev2 _ h2 with heq | ⟨l, heq⟩ <;> exact Ev.noConfusion heq
      | ok ms0 =>
        dsimp only at hx
        rcases List.mem_append.1 hx with h12 | h3
        · rcases List.mem_append.1 h12 with h1 | h2
          · have := List.mem_singleton.1 h1
            exact Ev.noConfusion this
          · rcases hev2 _ h2 with heq | ⟨l, heq⟩ <;> exact Ev.noConfusion heq
        · rcases syncLoop_trace_mem responses _ ms0 s2 _ h3 with
            ⟨dd, hdd, heq⟩ | ⟨dd, _, _, heq⟩ | ⟨l, _, heq⟩
          · have hxd : x = dd := by injection heq
            subst hxd
            have := (mem_getDateRange.1 hdd).1
            omega
          · exact Ev.noConfusion heq
          · exact Ev.noConfusion heq

/-- A loop that completed threw on no day: every windowed fetch returned a
value. -/
theorem syncLoop_ok_dayOk (responses : Int → Remote) (dates : List Int) :
    ∀ movies s, (syncLoop responses dates movies s).2.2 = .ok () →
      ∀ d ∈ dates, dayOk responses d := by
  induction dates with
  | nil => intro movies s _ d hd; cases hd
  | cons date rest ih =>
    intro movies s hok d hd
    rcases hres : (fetchMovies responses date).2 with e | o
    · rw [syncLoop_cons_error rest movies s hres] at hok
      exact Except.noConfusion hok
    · cases o with
      | none =>
        rw [syncLoop_cons_unavailable rest movies s hres] at hok
        dsimp only at hok
        rcases List.mem_cons.1 hd with rfl | hd'
        · exact ⟨none, hres⟩
        · exact ih movies s hok d hd'
      | some nm =>
        rw [syncLoop_cons_success rest movies s hres] at hok
        dsimp only at hok
        rcases List.mem_cons.1 hd with rfl | hd'
        · exact ⟨some nm, hres⟩
        · exact ih _ _ hok d hd'

/-- Bucket states reachable from `s` through any number of later
synchronization runs, under arbitrary clocks and remote worlds, whether the
runs complete or abort. -/
inductive Reaches : BucketState → BucketState → Prop where
  | refl (s : BucketState) : Reaches s s
  | step {s t u : BucketState} (today : Int) (responses : Int → Remote)
      (tr : List Ev) (r : Except SyncError Unit) :
      Reaches s t → syncMovies today responses t = (u, tr, r) → Reaches s u

/-- The persisted checkpoint never decreases across any sequence of
synchronization runs. -/
theorem Reaches_checkpoint_mono {s t : BucketState} {c : Int}
    (hcp : s.lastSyncedBlob = some c) (h : Reaches s t) :
    ∃ c', t.lastSyncedBlob = some c' ∧ c ≤ c' := by
  induction h with
  | refl => exact ⟨c, hcp, le_refl c⟩
  | step today responses tr r hst hrun ih =>
    rcases ih with ⟨c', hc', hle⟩
    rcases syncMovies_lastSynced_cases today responses _ c' hc' with h1 | ⟨x, hx, h1⟩
    · rw [hrun] at h1
      exact ⟨c', h1, hle⟩
    · rw [hrun] at h1
      exact ⟨x, h1, by omega⟩

/-- C9 (implicit): if within one run day `d` is `Unavailable` (non-404
failure status) while some later pending day `d'` succeeds and the run
completes, then the persisted checkpoint after the run is the last pending
day whose fetch returned an array — which is `> d` — and consequently no
subsequent run, over any sequence of later runs with any clocks and remote
worlds, ever fetches day `d` again. -/
theorem C9_unavailable_day_permanently_skipped (today : Int)
    (responses : Int → Remote) (s u : BucketState) (c d d' : Int)
    (tr : List Ev) (j : Json) (ms ms' : List Movie) (dates : List Int)
    (hcp : s.lastSyncedBlob = some c)
    (hmb : s.moviesBlob = some (.rawJson j)) (hp : parseMovies j = some ms)
    (hdates : getNextSyncDates today s = (s, [.getLastSynced], .ok dates))
    (hd : d ∈ dates) (hd' : d' ∈ dates) (hlt : d < d')
    (hunav : (fetchMovies responses d).2 = .ok none)
    (hsucc : (fetchMovies responses d').2 = .ok (some ms'))
    (hrun : syncMovies today responses s = (u, tr, .ok ())) :
    (∃ w, u.lastSyncedBlob = some w ∧ d < w ∧
      (dates.filter (fun x => daySucceeds responses x)).getLast? = some w) ∧
    (∀ t v today2 responses2 tr2 r2, Reaches u t →
      syncMovies today2 responses2 t = (v, tr2, r2) → Ev.fetch d ∉ tr2) := by
  by_cases hv : today - 1 < c
  · rw [getNextSyncDates_invalid hcp hv] at hdates
    simp at hdates
  push_neg at hv
  rw [getNextSyncDates_valid hcp hv] at hdates
  have hdeq : getDateRange (c + 1)
      (if c + 7 > today - 1 then today - 1 else c + 7) = dates := by
    have := congrArg (fun p => p.2.2) hdates
    simpa using this
  have hne : getDateRange (c + 1)
      (if c + 7 > today - 1 then today - 1 else c + 7) ≠ [] := by
    rw [hdeq]
    exact List.ne_nil_of_mem hd
  have hrun' := syncMovies_run today responses hcp hv hmb hp hne
  rw [hdeq] at hrun'
  rw [hrun'] at hrun
  have hu : (syncLoop responses dates ms s).1 = u := congrArg Prod.fst hrun
  have hres : (syncLoop responses dates ms s).2.2 = .ok () := by
    have := congrArg (fun p => p.2.2) hrun
    simpa using this
  have hallOk := syncLoop_ok_dayOk responses dates ms s hres
  rcases syncLoop_all_ok responses dates ms s hallOk with ⟨_, hlast⟩
  have hd'filter : d' ∈ dates.filter (fun x => daySucceeds responses x) :=
    List.mem_filter.2 ⟨hd', by unfold daySucceeds; rw [hsucc]⟩
  have hsorted : (dates.filter (fun x => daySucceeds responses x)).Pairwise
      (· < ·) := by
    have := getDateRange_pairwise_lt (c + 1)
      (if c + 7 > today - 1 then today - 1 else c + 7)
    rw [hdeq] at this
    exact List.Pairwise.filter _ this
  rcases mem_le_getLast_of_pairwise_lt hsorted hd'filter with ⟨w, hw, hd'w⟩
  have hulast : u.lastSyncedBlob = some w := by
    rw [← hu, hlast, hw, Option.elim_some]
  have hdw : d < w := by omega
  refine ⟨⟨w, hulast, hdw, hw⟩, ?_⟩
  intro t v today2 responses2 tr2 r2 hreach hrun2 hmem
  rcases Reaches_checkpoint_mono hulast hreach with ⟨c'', hc'', hwc⟩
  have hgt : c'' < d := by
    have := syncMovies_fetch_gt today2 responses2 t c'' hc'' d
      (by rw [hrun2]; exact hmem)
    exact this
  omega

/-- Witness for C9: checkpoint 100, clock 103; day 101 answers 500, day 102
succeeds; the run ends at checkpoint 102 > 101, and a subsequent run (whose
window is empty) does not fetch day 101. -/
theorem C9_witness :
    (∃ w, (⟨some (MoviesBlob.rawJson (.arr [])), some 102⟩ :
        BucketState).lastSyncedBlob = some w ∧ (101 : Int) < w ∧
      ([101, 102].filter (fun x => daySucceeds
        (fun dd => if dd = 101 then Remote.response 500 (.json (.arr []))
          else Remote.response 200 (.json (.arr []))) x)).getLast? = some w) ∧
    Ev.fetch 101 ∉ [Ev.getLastSynced] :=
  have h := C9_unavailable_day_permanently_skipped 103
    (fun dd => if dd = 101 then Remote.response 500 (.json (.arr []))
      else Remote.response 200 (.json (.arr [])))
    ⟨some (.rawJson (.arr [])), some 100⟩
    ⟨some (.rawJson (.arr [])), some 102⟩ 100 101 102
    [.getLastSynced, .getMovies, .fetch 101, .fetch 102, .putLastSynced 102]
    (.arr []) [] [] [101, 102] rfl rfl rfl rfl (by decide) (by decide)
    (by decide) rfl rfl rfl
  ⟨h.1, h.2 ⟨some (.rawJson (.arr [])), some 102⟩
    ⟨some (.rawJson (.arr [])), some 102⟩ 103 (fun _ => .transportError)
    [Ev.getLastSynced] (.ok ())
    (Reaches.refl ⟨some (.rawJson (.arr [])), some 102⟩) rfl⟩

end PopularMovies
